import Mathlib

/-!
Verification development for the StudyFlow excerpt: the course record store
(`src/services/api/courseService.js`) and the weighted grade aggregator of the
grades page (`src/components/pages/Grades.jsx`).

The store works on untyped JSON-like course records, so records are modelled as
association lists of string keys to JS-like values, with JS object-spread,
truthiness, `parseInt` and `Math.max` semantics made explicit.  JS numbers are
modelled as rationals, with a separate `vNaN` value standing for `NaN` (the
result of failed numeric coercion); none of the verified properties depends on
floating-point rounding of the arithmetic itself.  The artificial latency and
the localStorage round-trip are identity on the data and are elided: each
operation is a pure function from the stored collection (plus arguments) to the
new stored collection and its return value.
-/

/-- A JS value as it can appear in a course record: `null`, `NaN`, booleans,
numbers (modelled as rationals), strings, and arrays. -/
inductive Value where
  | vNull : Value
  | vNaN : Value
  | vBool : Bool → Value
  | vNum : ℚ → Value
  | vStr : String → Value
  | vArr : List Value → Value

mutual

/-- Decidable equality of JS values (hand-written: the nested list makes the
derived instance unavailable). -/
def Value.decEq : (a b : Value) → Decidable (a = b)
  | Value.vNull, Value.vNull => isTrue rfl
  | Value.vNull, Value.vNaN => isFalse (fun h => Value.noConfusion h)
  | Value.vNull, Value.vBool _ => isFalse (fun h => Value.noConfusion h)
  | Value.vNull, Value.vNum _ => isFalse (fun h => Value.noConfusion h)
  | Value.vNull, Value.vStr _ => isFalse (fun h => Value.noConfusion h)
  | Value.vNull, Value.vArr _ => isFalse (fun h => Value.noConfusion h)
  | Value.vNaN, Value.vNull => isFalse (fun h => Value.noConfusion h)
  | Value.vNaN, Value.vNaN => isTrue rfl
  | Value.vNaN, Value.vBool _ => isFalse (fun h => Value.noConfusion h)
  | Value.vNaN, Value.vNum _ => isFalse (fun h => Value.noConfusion h)
  | Value.vNaN, Value.vStr _ => isFalse (fun h => Value.noConfusion h)
  | Value.vNaN, Value.vArr _ => isFalse (fun h => Value.noConfusion h)
  | Value.vBool _, Value.vNull => isFalse (fun h => Value.noConfusion h)
  | Value.vBool _, Value.vNaN => isFalse (fun h => Value.noConfusion h)
  | Value.vBool a, Value.vBool b =>
      if h : a = b then isTrue (by rw [h]) else isFalse (fun hh => h (by injection hh))
  | Value.vBool _, Value.vNum _ => isFalse (fun h => Value.noConfusion h)
  | Value.vBool _, Value.vStr _ => isFalse (fun h => Value.noConfusion h)
  | Value.vBool _, Value.vArr _ => isFalse (fun h => Value.noConfusion h)
  | Value.vNum _, Value.vNull => isFalse (fun h => Value.noConfusion h)
  | Value.vNum _, Value.vNaN => isFalse (fun h => Value.noConfusion h)
  | Value.vNum _, Value.vBool _ => isFalse (fun h => Value.noConfusion h)
  | Value.vNum a, Value.vNum b =>
      if h : a = b then isTrue (by rw [h]) else isFalse (fun hh => h (by injection hh))
  | Value.vNum _, Value.vStr _ => isFalse (fun h => Value.noConfusion h)
  | Value.vNum _, Value.vArr _ => isFalse (fun h => Value.noConfusion h)
  | Value.vStr _, Value.vNull => isFalse (fun h => Value.noConfusion h)
  | Value.vStr _, Value.vNaN => isFalse (fun h => Value.noConfusion h)
  | Value.vStr _, Value.vBool _ => isFalse (fun h => Value.noConfusion h)
  | Value.vStr _, Value.vNum _ => isFalse (fun h => Value.noConfusion h)
  | Value.vStr a, Value.vStr b =>
      if h : a = b then isTrue (by rw [h]) else isFalse (fun hh => h (by injection hh))
  | Value.vStr _, Value.vArr _ => isFalse (fun h => Value.noConfusion h)
  | Value.vArr _, Value.vNull => isFalse (fun h => Value.noConfusion h)
  | Value.vArr _, Value.vNaN => isFalse (fun h => Value.noConfusion h)
  | Value.vArr _, Value.vBool _ => isFalse (fun h => Value.noConfusion h)
  | Value.vArr _, Value.vNum _ => isFalse (fun h => Value.noConfusion h)
  | Value.vArr _, Value.vStr _ => isFalse (fun h => Value.noConfusion h)
  | Value.vArr a, Value.vArr b =>
      match Value.decEqList a b with
      | isTrue h => isTrue (by rw [h])
      | isFalse h => isFalse (fun hh => h (by injection hh))

/-- Decidable equality of lists of JS values. -/
def Value.decEqList : (a b : List Value) → Decidable (a = b)
  | [], [] => isTrue rfl
  | [], _ :: _ => isFalse (fun h => List.noConfusion h)
  | _ :: _, [] => isFalse (fun h => List.noConfusion h)
  | x :: xs, y :: ys =>
      match Value.decEq x y, Value.decEqList xs ys with
      | isTrue h1, isTrue h2 => isTrue (by rw [h1, h2])
      | isFalse h1, _ => isFalse (fun h => h1 (by injection h))
      | _, isFalse h2 => isFalse (fun h => h2 (by injection h))

end

instance : DecidableEq Value := Value.decEq

/-- A JS object, e.g. a course record: an association list of fields.
JS objects have no duplicate keys; field lookup takes the first match. -/
abbrev Record : Type := List (String × Value)

/-- Field lookup, `obj[k]`: `none` models `undefined`. -/
def getField : Record → String → Option Value
  | [], _ => none
  | (k', v) :: rest, k => if k' = k then some v else getField rest k

/-- Overwrite-or-append one field, matching JS object-spread semantics:
an existing key keeps its position and gets the new value, a new key is
appended at the end. -/
def setField (r : Record) (k : String) (v : Value) : Record :=
  if r.any (fun p => p.1 = k) then
    r.map (fun p => if p.1 = k then (k, v) else p)
  else
    r ++ [(k, v)]

/-- JS object spread of two records, the value of the literal
written in the source as a spread of a over b: fields of the second record
overwrite fields of the first, new fields are appended in order. -/
def spreadRec (a b : Record) : Record :=
  b.foldl (fun acc p => setField acc p.1 p.2) a

/-- The keys of a record. -/
def keys (r : Record) : List String := r.map Prod.fst

/-- JS truthiness test (`false` for `null`, `NaN`, `false`, `0`, `""`,
`undefined` handled at the call site; arrays are truthy). -/
def falsy : Value → Bool
  | Value.vNull => true
  | Value.vNaN => true
  | Value.vBool b => !b
  | Value.vNum q => q == 0
  | Value.vStr s => s.isEmpty
  | Value.vArr _ => false

/-- Numeric coercion `ToNumber` as used by `Math.max`: `none` models `NaN`.
Strings are handled by `strToNumber`; coercion of arrays (which in JS goes
through their string form) is approximated as `NaN` — no verified property
evaluates `Math.max` on an array-valued `Id`. -/
def toNumber : Value → Option ℚ
  | Value.vNull => some 0
  | Value.vNaN => none
  | Value.vBool b => some (if b then 1 else 0)
  | Value.vNum q => some q
  | Value.vStr s => strToNumber s
  | Value.vArr _ => none
where
  /-- JS `Number(string)`: trimmed empty string is `0`; otherwise an optional
  sign followed by digits with an optional fractional part; else `NaN`. -/
  strToNumber (s : String) : Option ℚ :=
    let cs := s.data.dropWhile (fun c => c = ' ' ∨ c = '\t' ∨ c = '\n' ∨ c = '\r')
    let cs := (cs.reverse.dropWhile (fun c => c = ' ' ∨ c = '\t' ∨ c = '\n' ∨ c = '\r')).reverse
    if cs.isEmpty then some 0 else
    let (sign, cs) : ℚ × List Char :=
      match cs with
      | '-' :: rest => (-1, rest)
      | '+' :: rest => (1, rest)
      | _ => (1, cs)
    let intPart := cs.takeWhile Char.isDigit
    let rest := cs.dropWhile Char.isDigit
    let digitsVal (ds : List Char) : ℚ :=
      ds.foldl (fun acc c => acc * 10 + ((c.toNat - '0'.toNat : ℕ) : ℚ)) 0
    match rest with
    | [] => if intPart.isEmpty then none else some (sign * digitsVal intPart)
    | '.' :: frac =>
        if frac.all Char.isDigit ∧ ¬(intPart.isEmpty ∧ frac.isEmpty) then
          some (sign * (digitsVal intPart + digitsVal frac / (10 : ℚ) ^ frac.length))
        else none
    | _ => none

/-- An argument passed as the `id` parameter of the store operations: the
callers pass either a numeric `Course.Id` or a (route-derived) string. -/
inductive JsId where
  | num : ℤ → JsId
  | str : String → JsId
deriving DecidableEq

/-- JS `parseInt` on a string: skip leading whitespace, optional sign, then
leading decimal digits; `none` models `NaN` when no digit is found. -/
def parseIntStr (s : String) : Option ℤ :=
  let cs := s.data.dropWhile (fun c => c = ' ' ∨ c = '\t' ∨ c = '\n' ∨ c = '\r')
  let (sign, cs) : ℤ × List Char :=
    match cs with
    | '-' :: rest => (-1, rest)
    | '+' :: rest => (1, rest)
    | _ => (1, cs)
  let ds := cs.takeWhile Char.isDigit
  if ds.isEmpty then none
  else some (sign * ds.foldl (fun acc c => acc * 10 + ((c.toNat - '0'.toNat : ℕ) : ℤ)) 0)

/-- The value of `parseInt(id)` for either kind of argument (an integer argument parses to
itself). -/
def jsParseInt : JsId → Option ℤ
  | JsId.num n => some n
  | JsId.str s => parseIntStr s

/-- The strict comparison of the source, written there as a triple-equals
between a record's Id field and a parsed id: true only when both sides are
numbers with the same value (`NaN`, a missing field, or a non-number Id never
match). -/
def idMatch (c : Record) (pid : Option ℤ) : Bool :=
  match pid, getField c "Id" with
  | some n, some (Value.vNum q) => q == (n : ℚ)
  | _, _ => false

/-- JS `Array.prototype.findIndex` (with `-1` modelled as `none`). -/
def findIndex (p : Record → Bool) : List Record → Option ℕ
  | [] => none
  | c :: rest => if p c then some 0 else (findIndex p rest).map (· + 1)

/-- JS `Math.max` lifted to possibly-`NaN` operands (`NaN` is absorbing). -/
def jsMax (a b : Option ℚ) : Option ℚ :=
  match a, b with
  | some x, some y => some (max x y)
  | _, _ => none

/-- The numeric value of a record's Id field as seen by `Math.max(max, c.Id)`
(`undefined` coerces to `NaN`). -/
def idNumber (c : Record) : Option ℚ :=
  match getField c "Id" with
  | some v => toNumber v
  | none => none

/-- The Id value of a record, for uniqueness statements. -/
def idOf (c : Record) : Option Value := getField c "Id"

/-- The Id of a record when it is a number, else `none`. -/
def idQ (c : Record) : Option ℚ :=
  match getField c "Id" with
  | some (Value.vNum q) => some q
  | _ => none

/-- The source's `courses.reduce` computing the maximal existing Id, starting from `0`. -/
def maxIdAcc (courses : List Record) : Option ℚ :=
  courses.foldl (fun mx c => jsMax mx (idNumber c)) (some 0)

/-- Operation `getAll()`: returns a shallow copy of the stored collection (identity on
the data in this value-level model). -/
def getAll (courses : List Record) : List Record := courses

/-- Operation `getById(id)`: first stored record whose Id strictly equals the parsed id,
`none` ("null") when there is no match. -/
def getById (courses : List Record) (id : JsId) : Option Record :=
  courses.find? (fun c => idMatch c (jsParseInt id))

/-- The value stored under `gradeCategories` by `create`: the input course's
field when truthy, else the empty array (the source's logical-or default). -/
def defaultGC (course : Record) : Value :=
  match getField course "gradeCategories" with
  | some v => if falsy v then Value.vArr [] else v
  | none => Value.vArr []

/-- Operation `create(course)`: computes `maxId` over the store, builds the new record
by spreading the input with `Id` and `gradeCategories` overwritten, appends
and persists; returns the new store and the new record. -/
def create (courses : List Record) (course : Record) : List Record × Record :=
  let newIdVal : Value :=
    match maxIdAcc courses with
    | some m => Value.vNum (m + 1)
    | none => Value.vNaN
  let newCourse := setField (setField course "Id" newIdVal) "gradeCategories" (defaultGC course)
  (courses ++ [newCourse], newCourse)

/-- Operation `update(id, data)`: locate by parsed id; when found, shallow-merge `data`
over the record, persist, and return the merged record; when not found return
`none` and leave the store unchanged. -/
def updateOp (courses : List Record) (id : JsId) (data : Record) : List Record × Option Record :=
  match findIndex (fun c => idMatch c (jsParseInt id)) courses with
  | some i =>
      match courses[i]? with
      | some c =>
          let merged := spreadRec c data
          (courses.set i merged, some merged)
      | none => (courses, none)
  | none => (courses, none)

/-- Operation `delete(id)`: keep exactly the records whose Id does not strictly equal
the parsed id, persist, and report `true` unconditionally. -/
def deleteOp (courses : List Record) (id : JsId) : List Record × Bool :=
  (courses.filter (fun c => !(idMatch c (jsParseInt id))), true)

/-- One call against the course record store (the argument of each call). -/
inductive Op where
  | opGetAll : Op
  | opGetById : JsId → Op
  | opCreate : Record → Op
  | opUpdate : JsId → Record → Op
  | opDelete : JsId → Op
deriving DecidableEq

/-- The stored collection after one operation (read operations do not change
the store). -/
def applyOp (s : List Record) : Op → List Record
  | Op.opGetAll => getAll s
  | Op.opGetById _ => s
  | Op.opCreate c => (create s c).1
  | Op.opUpdate id d => (updateOp s id d).1
  | Op.opDelete id => (deleteOp s id).1

/-- Uniqueness of the stored Id values. -/
def uniqueIds (s : List Record) : Prop := (s.map idOf).Nodup

instance : DecidablePred uniqueIds := by
  intro s; unfold uniqueIds; infer_instance

/-- Every stored record carries a numeric Id field. -/
def wfIds (s : List Record) : Bool :=
  s.all (fun c => match getField c "Id" with
    | some (Value.vNum _) => true
    | _ => false)

/-- Every stored record carries a positive numeric Id field. -/
def posIds (s : List Record) : Bool :=
  s.all (fun c => match getField c "Id" with
    | some (Value.vNum q) => decide (0 < q)
    | _ => false)

/-- An operation whose `partialData` does not write the Id field (read
operations, create, delete, and updates not named "Id"). -/
def noIdWrite : Op → Prop
  | Op.opUpdate _ d => "Id" ∉ keys d
  | _ => True

instance : DecidablePred noIdWrite := by
  intro op; cases op <;> unfold noIdWrite <;> infer_instance

/-- Every stored record carries an integer-valued numeric Id field (the data
model declares `Course.Id` an integer). -/
def intIds (s : List Record) : Bool :=
  s.all (fun c => match getField c "Id" with
    | some (Value.vNum q) => q.den == 1
    | _ => false)

/-! The grade aggregator of the grades page.  It works on the typed shapes of
the data model: a course's grade categories and the assignment records
returned by the assignment store (grades may be `null` before grading, hence
`Option ℚ`). -/

/-- A named weighted component of a course's grade. -/
structure GradeCategory where
  name : String
  weight : ℚ
deriving DecidableEq

/-- A course as the grades page reads it (the untyped store guarantees none of
this; the page assumes it). -/
structure Course where
  Id : ℤ
  code : String
  color : String
  targetGrade : ℚ
  gradeCategories : List GradeCategory
deriving DecidableEq

/-- An assignment record from the collaborating assignment store. -/
structure Assignment where
  Id : ℤ
  courseId : ℤ
  title : String
  category : String
  completed : Bool
  grade : Option ℚ
deriving DecidableEq

/-- One row of the computed grade breakdown. -/
structure CategoryGrade where
  name : String
  weight : ℚ
  average : ℚ
  count : ℕ
  weightedScore : ℚ
deriving DecidableEq

/-- JS `Math.round`: half-integers round up (towards plus infinity). -/
def jsRound (x : ℚ) : ℤ := ⌊x + 1 / 2⌋

/-- The source's rounding idiom `Math.round(x * 10) / 10`: round to one
decimal place, half-up on the tenths digit. -/
def round1 (x : ℚ) : ℚ := (jsRound (x * 10) : ℚ) / 10

/-- The page's pre-filter: assignments of the selected course that are
completed and carry a non-null grade. -/
def courseAssignments (assignments : List Assignment) (selectedCourse : ℤ) : List Assignment :=
  assignments.filter (fun a => a.courseId == selectedCourse && a.completed && a.grade.isSome)

/-- The body of the map inside `calculateGradeByCategory`, for one category:
matching assignments, their raw mean and raw weighted contribution, each
rounded to one decimal place in the returned row; a category with no matching
assignment yields the all-zero row. -/
def calcCategory (cas : List Assignment) (category : GradeCategory) : CategoryGrade :=
  let categoryAssignments := cas.filter (fun a => a.category == category.name)
  if categoryAssignments.length = 0 then
    { name := category.name, weight := category.weight, average := 0, count := 0, weightedScore := 0 }
  else
    let average :=
      categoryAssignments.foldl (fun sum a => sum + a.grade.getD 0) 0 / (categoryAssignments.length : ℚ)
    let weightedScore := average * category.weight / 100
    { name := category.name, weight := category.weight, average := round1 average,
      count := categoryAssignments.length, weightedScore := round1 weightedScore }

/-- The source's `calculateGradeByCategory`: one breakdown row per category, in the order
of the course's category list.  (The source returns the empty list when no
course is selected or the course has no `gradeCategories` field; a `Course`
value always carries its list, so only the list is modelled.) -/
def calculateGradeByCategory (currentCourse : Course) (cas : List Assignment) : List CategoryGrade :=
  currentCourse.gradeCategories.map (calcCategory cas)

/-- The rollup `currentGrade`: the sum of the (already rounded) weighted scores. -/
def currentGrade (categoryGrades : List CategoryGrade) : ℚ :=
  categoryGrades.foldl (fun sum cat => sum + cat.weightedScore) 0

/-- The rollup `totalWeight`: the sum of the weights of the categories that have at
least one matching graded assignment. -/
def totalWeight (categoryGrades : List CategoryGrade) : ℚ :=
  categoryGrades.foldl (fun sum cat => if cat.count > 0 then sum + cat.weight else sum) 0

/-- The rollup `adjustedGrade`: the renormalized percentage, `0` when no category has
data (the division is guarded by `totalWeight > 0`). -/
def adjustedGrade (categoryGrades : List CategoryGrade) : ℚ :=
  if totalWeight categoryGrades > 0 then
    currentGrade categoryGrades / totalWeight categoryGrades * 100
  else 0

/-- The course of the spec's worked aggregation example. -/
def exCourse : Course :=
  { Id := 1, code := "CS101", color := "#6366f1", targetGrade := 90,
    gradeCategories := [⟨"Homework", 40⟩, ⟨"Exams", 60⟩] }

/-- The assignments of the spec's worked aggregation example, all completed
and graded. -/
def exAssignments : List Assignment :=
  [ { Id := 1, courseId := 1, title := "hw1", category := "Homework", completed := true, grade := some 90 },
    { Id := 2, courseId := 1, title := "hw2", category := "Homework", completed := true, grade := some 80 },
    { Id := 3, courseId := 1, title := "ex1", category := "Exams", completed := true, grade := some 70 } ]

/-- Concrete single-assignment input used by the rounding witness. -/
def w2cas : List Assignment :=
  [{ Id := 1, courseId := 1, title := "a", category := "HW", completed := true,
     grade := some 80 }]

/-- Concrete category used by the rounding witness. -/
def w2cat : GradeCategory := ⟨"HW", 50⟩

/-! Helper lemmas: field lookup against `setField` and `spreadRec`,
`findIndex`, and the running maximum of `create`. -/

theorem getField_map_set (r : Record) (k : String) (v : Value) :
    getField (r.map (fun p => if p.1 = k then (k, v) else p)) k =
      (getField r k).map (fun _ => v) := by
  induction r with
  | nil => rfl
  | cons p rest ih =>
      obtain ⟨a, b⟩ := p
      simp only [List.map_cons]
      by_cases h : a = k
      · rw [if_pos h]
        simp [getField, h, ih]
      · rw [if_neg h]
        simp [getField, h, ih]

theorem getField_map_set_ne (r : Record) (k k' : String) (v : Value) (h : k' ≠ k) :
    getField (r.map (fun p => if p.1 = k then (k, v) else p)) k' = getField r k' := by
  induction r with
  | nil => rfl
  | cons p rest ih =>
      obtain ⟨a, b⟩ := p
      simp only [List.map_cons]
      by_cases ha : a = k
      · rw [if_pos ha]
        have hne : ¬(k = k') := fun hh => h hh.symm
        have hne' : ¬(a = k') := fun hh => h (ha ▸ hh).symm
        simp [getField, hne, hne', ih]
      · rw [if_neg ha]
        simp [getField, ih]

theorem getField_append (r s : Record) (k : String) :
    getField (r ++ s) k =
      match getField r k with
      | some v => some v
      | none => getField s k := by
  induction r with
  | nil => rfl
  | cons p rest ih =>
      obtain ⟨a, b⟩ := p
      by_cases h : a = k <;> simp [getField, h, ih]

theorem any_key_eq_isSome (r : Record) (k : String) :
    r.any (fun p => p.1 = k) = (getField r k).isSome := by
  induction r with
  | nil => rfl
  | cons p rest ih =>
      obtain ⟨a, b⟩ := p
      by_cases ha : a = k
      · simp [getField, ha]
      · simp [getField, ha, ih]

theorem getField_setField_self (r : Record) (k : String) (v : Value) :
    getField (setField r k v) k = some v := by
  unfold setField
  cases hg : getField r k with
  | some w =>
      rw [if_pos (by simp [any_key_eq_isSome, hg]), getField_map_set, hg]
      rfl
  | none =>
      rw [if_neg (by simp [any_key_eq_isSome, hg]), getField_append, hg]
      simp [getField]

theorem getField_setField_ne (r : Record) (k k' : String) (v : Value) (h : k' ≠ k) :
    getField (setField r k v) k' = getField r k' := by
  unfold setField
  by_cases ha : r.any (fun p => p.1 = k) = true
  · rw [if_pos ha, getField_map_set_ne r k k' v h]
  · rw [if_neg ha, getField_append]
    cases hg : getField r k' with
    | some w => simp
    | none => simp [getField, Ne.symm h]

theorem getField_spreadRec_not_mem (b : Record) (k : String) (h : k ∉ keys b) :
    ∀ a : Record, getField (spreadRec a b) k = getField a k := by
  induction b with
  | nil => intro a; rfl
  | cons p rest ih =>
      intro a
      obtain ⟨k0, v0⟩ := p
      simp only [keys, List.map_cons, List.mem_cons] at h
      push_neg at h
      have : spreadRec a ((k0, v0) :: rest) = spreadRec (setField a k0 v0) rest := rfl
      rw [this, ih (by simpa [keys] using h.2) (setField a k0 v0),
        getField_setField_ne a k0 k v0 h.1]

theorem getField_spreadRec_mem (b : Record) (k : String) (hnd : (keys b).Nodup)
    (h : k ∈ keys b) : ∀ a : Record, getField (spreadRec a b) k = getField b k := by
  induction b with
  | nil => simp [keys] at h
  | cons p rest ih =>
      intro a
      obtain ⟨k0, v0⟩ := p
      have hstep : spreadRec a ((k0, v0) :: rest) = spreadRec (setField a k0 v0) rest := rfl
      simp only [keys, List.map_cons, List.nodup_cons] at hnd
      by_cases hk : k = k0
      · subst hk
        rw [hstep, getField_spreadRec_not_mem rest k (by simpa [keys] using hnd.1),
          getField_setField_self]
        simp [getField]
      · have hmem : k ∈ keys rest := by
          simpa [keys, hk] using h
        rw [hstep, ih hnd.2 hmem]
        simp only [getField]
        rw [if_neg (fun hh : k0 = k => hk hh.symm)]

theorem findIndex_lt_length {p : Record → Bool} {l : List Record} :
    ∀ {i : ℕ}, findIndex p l = some i → i < l.length := by
  induction l with
  | nil => intro i h; simp [findIndex] at h
  | cons c rest ih =>
      intro i h
      simp only [findIndex] at h
      by_cases hc : p c = true
      · rw [if_pos hc] at h
        injection h with h
        subst h
        simp
      · rw [if_neg hc] at h
        obtain ⟨j, hj, hji⟩ := Option.map_eq_some'.mp h
        have := ih hj
        simp only [List.length_cons]
        omega

theorem findIndex_found {p : Record → Bool} {l : List Record} :
    ∀ {i : ℕ}, findIndex p l = some i → ∃ c, l[i]? = some c ∧ p c = true := by
  induction l with
  | nil => intro i h; simp [findIndex] at h
  | cons c rest ih =>
      intro i h
      simp only [findIndex] at h
      by_cases hc : p c = true
      · rw [if_pos hc] at h
        injection h with h
        subst h
        exact ⟨c, by simp, hc⟩
      · rw [if_neg hc] at h
        obtain ⟨j, hj, hji⟩ := Option.map_eq_some'.mp h
        obtain ⟨d, hd, hpd⟩ := ih hj
        subst hji
        exact ⟨d, by simpa using hd, hpd⟩

theorem findIndex_eq_none {p : Record → Bool} {l : List Record}
    (h : ∀ c ∈ l, p c = false) : findIndex p l = none := by
  induction l with
  | nil => rfl
  | cons c rest ih =>
      have hc := h c (List.mem_cons_self c rest)
      have hrest := ih (fun d hd => h d (List.mem_cons_of_mem _ hd))
      simp [findIndex, hc, hrest]

theorem set_self_of_getElem? {α : Type} :
    ∀ {l : List α} {i : ℕ} {a : α}, l[i]? = some a → l.set i a = l := by
  intro l
  induction l with
  | nil => intro i a h; simp at h
  | cons c rest ih =>
      intro i a h
      cases i with
      | zero => simp at h; simp [h]
      | succ j =>
          simp only [List.getElem?_cons_succ] at h
          simp [List.set_cons_succ, ih h]

theorem wf_idNumber {s : List Record} (hwf : wfIds s = true) :
    ∀ c ∈ s, ∃ q : ℚ, getField c "Id" = some (Value.vNum q) ∧ idNumber c = some q ∧
      idQ c = some q := by
  intro c hc
  have := (List.all_eq_true.mp hwf) c hc
  cases hg : getField c "Id" with
  | none => rw [hg] at this; simp at this
  | some v =>
      cases v with
      | vNum q => exact ⟨q, rfl, by simp [idNumber, hg, toNumber], by simp [idQ, hg]⟩
      | vNull => rw [hg] at this; simp at this
      | vNaN => rw [hg] at this; simp at this
      | vBool b => rw [hg] at this; simp at this
      | vStr a => rw [hg] at this; simp at this
      | vArr a => rw [hg] at this; simp at this

theorem foldl_jsMax_spec :
    ∀ (l : List Record), (∀ c ∈ l, ∃ q : ℚ, idNumber c = some q) → ∀ a : ℚ,
      ∃ m : ℚ, l.foldl (fun mx c => jsMax mx (idNumber c)) (some a) = some m ∧ a ≤ m ∧
        (∀ c ∈ l, ∀ q : ℚ, idNumber c = some q → q ≤ m) ∧
        (m = a ∨ ∃ c ∈ l, idNumber c = some m) := by
  intro l
  induction l with
  | nil => exact fun _ a => ⟨a, rfl, le_refl a, fun c hc => by simp at hc, Or.inl rfl⟩
  | cons c rest ih =>
      intro h a
      obtain ⟨q0, hq0⟩ := h c (List.mem_cons_self c rest)
      obtain ⟨m, hm, hle, hbound, hatt⟩ :=
        ih (fun d hd => h d (List.mem_cons_of_mem _ hd)) (max a q0)
      refine ⟨m, ?_, le_trans (le_max_left a q0) hle, ?_, ?_⟩
      · simpa [List.foldl_cons, jsMax, hq0] using hm
      · intro d hd q hq
        rcases List.mem_cons.mp hd with hdc | hdrest
        · subst hdc
          rw [hq0] at hq
          injection hq with hq
          subst hq
          exact le_trans (le_max_right a _) hle
        · exact hbound d hdrest q hq
      · rcases hatt with hma | ⟨d, hd, hdm⟩
        · rcases max_cases a q0 with ⟨hmax, _⟩ | ⟨hmax, hlt⟩
          · exact Or.inl (hma.trans hmax)
          · exact Or.inr ⟨c, List.mem_cons_self c rest, by rw [hq0, hma, hmax]⟩
        · exact Or.inr ⟨d, List.mem_cons_of_mem _ hd, hdm⟩

theorem maxIdAcc_spec {s : List Record} (hwf : wfIds s = true) :
    ∃ m : ℚ, maxIdAcc s = some m ∧ 0 ≤ m ∧
      (∀ c ∈ s, ∀ q : ℚ, idQ c = some q → q ≤ m) ∧
      (m = 0 ∨ ∃ c ∈ s, idQ c = some m) := by
  obtain ⟨m, hm, hle, hbound, hatt⟩ :=
    foldl_jsMax_spec s (fun c hc => ⟨(wf_idNumber hwf c hc).choose,
      (wf_idNumber hwf c hc).choose_spec.2.1⟩) 0
  refine ⟨m, hm, hle, ?_, ?_⟩
  · intro c hc q hq
    obtain ⟨q', _, hnum, hidq⟩ := wf_idNumber hwf c hc
    rw [hidq] at hq
    injection hq with hq
    subst hq
    exact hbound c hc _ hnum
  · rcases hatt with h0 | ⟨c, hc, hnum⟩
    · exact Or.inl h0
    · obtain ⟨q', _, hnum', hidq⟩ := wf_idNumber hwf c hc
      rw [hnum'] at hnum
      injection hnum with hnum
      exact Or.inr ⟨c, hc, by rw [hidq, hnum]⟩

theorem create_id_spec {s : List Record} (course : Record) (hwf : wfIds s = true) :
    ∃ m : ℚ, maxIdAcc s = some m ∧ 0 ≤ m ∧
      (∀ c ∈ s, ∀ q : ℚ, idQ c = some q → q ≤ m) ∧
      (m = 0 ∨ ∃ c ∈ s, idQ c = some m) ∧
      getField (create s course).2 "Id" = some (Value.vNum (m + 1)) ∧
      (create s course).1 = s ++ [(create s course).2] := by
  obtain ⟨m, hm, hle, hbound, hatt⟩ := maxIdAcc_spec hwf
  refine ⟨m, hm, hle, hbound, hatt, ?_, ?_⟩
  · show getField (setField (setField course "Id" _) "gradeCategories" _) "Id" = _
    rw [getField_setField_ne _ _ _ _ (by decide), hm, getField_setField_self]
  · simp [create]

theorem wfIds_mem {s : List Record} (hwf : wfIds s = true) {c : Record} (hc : c ∈ s) :
    ∃ q : ℚ, getField c "Id" = some (Value.vNum q) :=
  ⟨(wf_idNumber hwf c hc).choose, (wf_idNumber hwf c hc).choose_spec.1⟩

theorem wfIds_of_forall {s : List Record}
    (h : ∀ c ∈ s, ∃ q : ℚ, getField c "Id" = some (Value.vNum q)) : wfIds s = true := by
  apply List.all_eq_true.mpr
  intro c hc
  obtain ⟨q, hq⟩ := h c hc
  simp [hq]

theorem create_preserves {s : List Record} (course : Record)
    (hwf : wfIds s = true) (hu : uniqueIds s) :
    wfIds (create s course).1 = true ∧ uniqueIds (create s course).1 := by
  obtain ⟨m, _, _, hbound, _, hid, hstore⟩ := create_id_spec course hwf
  constructor
  · rw [hstore]
    apply wfIds_of_forall
    intro c hc
    rcases List.mem_append.mp hc with hcs | hcnew
    · exact wfIds_mem hwf hcs
    · have : c = (create s course).2 := by simpa using hcnew
      exact ⟨m + 1, this ▸ hid⟩
  · rw [hstore]
    unfold uniqueIds
    rw [List.map_append]
    rw [List.nodup_append]
    refine ⟨hu, by simp, ?_⟩
    intro x hxs hxnew
    simp only [List.map_cons, List.map_nil, List.mem_cons, List.not_mem_nil, or_false] at hxnew
    subst hxnew
    obtain ⟨c', hc', hcx⟩ := List.mem_map.mp hxs
    obtain ⟨q', hq'⟩ := wfIds_mem hwf hc'
    rw [idOf, hq'] at hcx
    rw [idOf, hid] at hcx
    injection hcx with hcx
    injection hcx with hcx
    have hle : q' ≤ m := hbound c' hc' q' (by simp [idQ, hq'])
    rw [hcx] at hle
    linarith

theorem updateOp_store (s : List Record) (id : JsId) (data : Record) :
    (updateOp s id data).1 = s ∨
      ∃ i c, findIndex (fun c => idMatch c (jsParseInt id)) s = some i ∧
        s[i]? = some c ∧ (updateOp s id data).1 = s.set i (spreadRec c data) ∧
        (updateOp s id data).2 = some (spreadRec c data) := by
  cases hf : findIndex (fun c => idMatch c (jsParseInt id)) s with
  | none => exact Or.inl (by simp [updateOp, hf])
  | some i =>
      cases hg : s[i]? with
      | none => exact Or.inl (by simp [updateOp, hf, hg])
      | some c =>
          exact Or.inr ⟨i, c, rfl, hg, by simp [updateOp, hf, hg], by simp [updateOp, hf, hg]⟩

theorem update_preserves {s : List Record} (id : JsId) (data : Record)
    (hid : "Id" ∉ keys data) (hwf : wfIds s = true) (hu : uniqueIds s) :
    wfIds (updateOp s id data).1 = true ∧ uniqueIds (updateOp s id data).1 := by
  rcases updateOp_store s id data with hsame | ⟨i, c, _, hg, hstore, _⟩
  · rw [hsame]; exact ⟨hwf, hu⟩
  · have hcs : c ∈ s := List.getElem?_mem hg
    have hidpres : getField (spreadRec c data) "Id" = getField c "Id" :=
      getField_spreadRec_not_mem data "Id" hid c
    constructor
    · rw [hstore]
      apply wfIds_of_forall
      intro d hd
      rcases List.mem_or_eq_of_mem_set hd with hds | hdm
      · exact wfIds_mem hwf hds
      · subst hdm
        obtain ⟨q, hq⟩ := wfIds_mem hwf hcs
        exact ⟨q, hidpres.trans hq⟩
    · rw [hstore]
      unfold uniqueIds
      rw [List.map_set]
      have : (List.map idOf s)[i]? = some (idOf (spreadRec c data)) := by
        rw [List.getElem?_map, hg]
        simp [idOf, hidpres]
      rw [set_self_of_getElem? this]
      exact hu

theorem delete_preserves {s : List Record} (id : JsId)
    (hwf : wfIds s = true) (hu : uniqueIds s) :
    wfIds (deleteOp s id).1 = true ∧ uniqueIds (deleteOp s id).1 := by
  constructor
  · apply wfIds_of_forall
    intro c hc
    exact wfIds_mem hwf (List.mem_of_mem_filter hc)
  · exact ((List.filter_sublist s).map idOf).nodup hu

theorem applyOp_preserves {s : List Record} {op : Op} (hop : noIdWrite op)
    (hwf : wfIds s = true) (hu : uniqueIds s) :
    wfIds (applyOp s op) = true ∧ uniqueIds (applyOp s op) := by
  cases op with
  | opGetAll => exact ⟨hwf, hu⟩
  | opGetById id => exact ⟨hwf, hu⟩
  | opCreate c => exact create_preserves c hwf hu
  | opUpdate id d => exact update_preserves id d hop hwf hu
  | opDelete id => exact delete_preserves id hwf hu

theorem foldl_applyOp_preserves {ops : List Op} :
    ∀ {s : List Record}, (∀ op ∈ ops, noIdWrite op) → wfIds s = true → uniqueIds s →
      wfIds (ops.foldl applyOp s) = true ∧ uniqueIds (ops.foldl applyOp s) := by
  induction ops with
  | nil => exact fun _ hwf hu => ⟨hwf, hu⟩
  | cons op rest ih =>
      intro s hops hwf hu
      obtain ⟨hwf', hu'⟩ := applyOp_preserves (hops op (List.mem_cons_self op rest)) hwf hu
      exact ih (fun o ho => hops o (List.mem_cons_of_mem _ ho)) hwf' hu'

theorem posIds_mem {s : List Record} (hpos : posIds s = true) {c : Record} (hc : c ∈ s) :
    ∀ q : ℚ, idQ c = some q → 0 < q := by
  intro q hq
  have := (List.all_eq_true.mp hpos) c hc
  cases hg : getField c "Id" with
  | none => rw [idQ, hg] at hq; simp at hq
  | some v =>
      cases v with
      | vNum q' =>
          rw [idQ, hg] at hq
          injection hq with hq
          subst hq
          rw [hg] at this
          simpa using this
      | vNull => rw [hg] at this; simp at this
      | vNaN => rw [hg] at this; simp at this
      | vBool b => rw [hg] at this; simp at this
      | vStr a => rw [hg] at this; simp at this
      | vArr a => rw [hg] at this; simp at this

theorem intIds_mem {s : List Record} (hint : intIds s = true) {c : Record} (hc : c ∈ s) :
    ∀ q : ℚ, idQ c = some q → q.den = 1 := by
  intro q hq
  have := (List.all_eq_true.mp hint) c hc
  cases hg : getField c "Id" with
  | none => rw [idQ, hg] at hq; simp at hq
  | some v =>
      cases v with
      | vNum q' =>
          rw [idQ, hg] at hq
          injection hq with hq
          subst hq
          rw [hg] at this
          simpa using this
      | vNull => rw [hg] at this; simp at this
      | vNaN => rw [hg] at this; simp at this
      | vBool b => rw [hg] at this; simp at this
      | vStr a => rw [hg] at this; simp at this
      | vArr a => rw [hg] at this; simp at this

theorem foldl_weight_of_counts_zero :
    ∀ (l : List CategoryGrade) (a : ℚ), (∀ cg ∈ l, cg.count = 0) →
      l.foldl (fun sum cat => if cat.count > 0 then sum + cat.weight else sum) a = a := by
  intro l
  induction l with
  | nil => intro a _; rfl
  | cons cg rest ih =>
      intro a h
      have h0 : cg.count = 0 := h cg (List.mem_cons_self cg rest)
      simp only [List.foldl_cons, h0]
      rw [if_neg (by simp)]
      exact ih a (fun d hd => h d (List.mem_cons_of_mem _ hd))

theorem idMatch_none (c : Record) : idMatch c none = false := rfl

/-! The claims. -/

/-- C5: for every id whose `parseInt` yields `NaN` (a non-numeric id) and every
stored collection, `getById` returns the not-found sentinel `none` — the parsed
value strictly-equals no stored `Course.Id` — and, being a total function, it
raises no error. -/
theorem getById_non_numeric_is_none (s : List Record) (id : JsId)
    (h : jsParseInt id = none) : getById s id = none := by
  unfold getById
  apply List.find?_eq_none.mpr
  intro c _
  rw [h, idMatch_none]
  simp

/-- Witness for C5 at the store `[{Id: 1}]` and the non-numeric id `"abc"`. -/
theorem getById_non_numeric_is_none_witness :
    jsParseInt (JsId.str "abc") = none ∧
      getById [[("Id", Value.vNum 1)]] (JsId.str "abc") = none :=
  ⟨by decide, getById_non_numeric_is_none [[("Id", Value.vNum 1)]] (JsId.str "abc") (by decide)⟩

/-- C8: `delete` always reports `true`, the resulting store holds exactly the
prior records whose Id does not strictly-equal the parsed id, and a second
`delete` with the same id returns `true` again and leaves the store of the
first call unchanged (idempotence), for numeric and non-numeric ids alike. -/
theorem delete_true_filter_idempotent (s : List Record) (id : JsId) :
    (deleteOp s id).2 = true ∧
      (∀ c, c ∈ (deleteOp s id).1 ↔ c ∈ s ∧ idMatch c (jsParseInt id) = false) ∧
      deleteOp (deleteOp s id).1 id = deleteOp s id := by
  refine ⟨rfl, ?_, ?_⟩
  · intro c
    simp [deleteOp, List.mem_filter]
  · simp [deleteOp, List.filter_filter]

/-- C7: when the parsed id strictly-equals no stored record's Id, `update`
returns the sentinel `none` and the store is unchanged (nothing persisted);
when a record is found, the whole merged record is stored and returned — the
operation either fully succeeds or changes nothing. -/
theorem update_not_found_or_whole (s : List Record) (id : JsId) (data : Record) :
    ((∀ c ∈ s, idMatch c (jsParseInt id) = false) → updateOp s id data = (s, none)) ∧
      (∀ i, findIndex (fun c => idMatch c (jsParseInt id)) s = some i →
        ∃ c, s[i]? = some c ∧
          updateOp s id data = (s.set i (spreadRec c data), some (spreadRec c data))) := by
  constructor
  · intro h
    have hf := findIndex_eq_none h
    simp [updateOp, hf]
  · intro i hf
    obtain ⟨c, hg, _⟩ := findIndex_found hf
    exact ⟨c, hg, by simp [updateOp, hf, hg]⟩

/-- Witness for C7: updating id `9` in the store `[{Id: 1}]` returns `none`
and leaves the store unchanged. -/
theorem update_not_found_or_whole_witness :
    updateOp [[("Id", Value.vNum 1)]] (JsId.num 9) [("code", Value.vStr "B")] =
      ([[("Id", Value.vNum 1)]], none) :=
  (update_not_found_or_whole [[("Id", Value.vNum 1)]] (JsId.num 9)
    [("code", Value.vStr "B")]).1 (by decide)

/-- C6: when `update` locates a record, exactly the fields named in
`partialData` change: the merged record agrees with `partialData` on its keys
and with the prior record everywhere else, and every other position of the
store is untouched (keys of a JS object are distinct, hence the `Nodup`
hypothesis). -/
theorem update_merge_frame (s : List Record) (id : JsId) (data : Record) (i : ℕ)
    (hf : findIndex (fun c => idMatch c (jsParseInt id)) s = some i)
    (hnd : (keys data).Nodup) :
    ∃ c, s[i]? = some c ∧
      (updateOp s id data).2 = some (spreadRec c data) ∧
      (updateOp s id data).1 = s.set i (spreadRec c data) ∧
      (∀ k ∈ keys data, getField (spreadRec c data) k = getField data k) ∧
      (∀ k, k ∉ keys data → getField (spreadRec c data) k = getField c k) ∧
      (∀ j, j ≠ i → (updateOp s id data).1[j]? = s[j]?) := by
  obtain ⟨c, hg, _⟩ := findIndex_found hf
  refine ⟨c, hg, by simp [updateOp, hf, hg], by simp [updateOp, hf, hg], ?_, ?_, ?_⟩
  · intro k hk
    exact getField_spreadRec_mem data k hnd hk c
  · intro k hk
    exact getField_spreadRec_not_mem data k hk c
  · intro j hj
    rw [show (updateOp s id data).1 = s.set i (spreadRec c data) from by simp [updateOp, hf, hg]]
    exact List.getElem?_set_ne (fun hh => hj hh.symm)

/-- Witness for C6 at the store `[{Id: 1, code: "A"}]`, id `1`, data
`{code: "B"}`. -/
theorem update_merge_frame_witness :
    ∃ c, ([[("Id", Value.vNum 1), ("code", Value.vStr "A")]] : List Record)[0]? = some c ∧
      (updateOp [[("Id", Value.vNum 1), ("code", Value.vStr "A")]] (JsId.num 1)
          [("code", Value.vStr "B")]).2 = some (spreadRec c [("code", Value.vStr "B")]) ∧
      (updateOp [[("Id", Value.vNum 1), ("code", Value.vStr "A")]] (JsId.num 1)
          [("code", Value.vStr "B")]).1 =
        ([[("Id", Value.vNum 1), ("code", Value.vStr "A")]] : List Record).set 0
          (spreadRec c [("code", Value.vStr "B")]) ∧
      (∀ k ∈ keys [("code", Value.vStr "B")],
        getField (spreadRec c [("code", Value.vStr "B")]) k =
          getField [("code", Value.vStr "B")] k) ∧
      (∀ k, k ∉ keys [("code", Value.vStr "B")] →
        getField (spreadRec c [("code", Value.vStr "B")]) k = getField c k) ∧
      (∀ j, j ≠ 0 →
        (updateOp [[("Id", Value.vNum 1), ("code", Value.vStr "A")]] (JsId.num 1)
            [("code", Value.vStr "B")]).1[j]? =
          ([[("Id", Value.vNum 1), ("code", Value.vStr "A")]] : List Record)[j]?) :=
  update_merge_frame [[("Id", Value.vNum 1), ("code", Value.vStr "A")]] (JsId.num 1)
    [("code", Value.vStr "B")] 0 (by decide) (by decide)

/-- C4: for a well-formed store (numeric, positive Ids) and any input course —
including one that already carries an Id field, which is overwritten — the
record returned by `create` has Id `m + 1` where `m` is the maximum stored Id
(`m = 0`, hence Id `1`, on the empty store; on a non-empty store `m` is
attained by a stored record), and this new Id strictly exceeds every stored
Id, which gives the strict monotonicity across a sequence of `create` calls. -/
theorem create_assigns_max_plus_one (s : List Record) (course : Record)
    (hwf : wfIds s = true) (hpos : posIds s = true) :
    ∃ m : ℚ, getField (create s course).2 "Id" = some (Value.vNum (m + 1)) ∧
      (s = [] → m = 0) ∧
      (s ≠ [] → ∃ c ∈ s, idQ c = some m) ∧
      (∀ c ∈ s, ∀ q : ℚ, idQ c = some q → q < m + 1) := by
  obtain ⟨m, hm, _, hbound, hatt, hid, _⟩ := create_id_spec course hwf
  refine ⟨m, hid, ?_, ?_, ?_⟩
  · intro hs
    subst hs
    have : maxIdAcc ([] : List Record) = some 0 := rfl
    rw [this] at hm
    injection hm with hm
    exact hm.symm
  · intro hs
    rcases hatt with h0 | hex
    · exfalso
      obtain ⟨c, hc⟩ := List.exists_mem_of_ne_nil s hs
      obtain ⟨q, _, _, hidq⟩ := wf_idNumber hwf c hc
      have hqpos := posIds_mem hpos hc q hidq
      have hqle := hbound c hc q hidq
      rw [h0] at hqle
      linarith
    · exact hex
  · intro c hc q hq
    have := hbound c hc q hq
    linarith

/-- Witness for C4 at the store `[{Id: 1}]` and an input course that already
carries `Id: 99`. -/
theorem create_assigns_max_plus_one_witness :
    ∃ m : ℚ,
      getField (create [[("Id", Value.vNum 1)]] [("Id", Value.vNum 99)]).2 "Id" =
        some (Value.vNum (m + 1)) ∧
      ([[("Id", Value.vNum 1)]] = ([] : List Record) → m = 0) ∧
      (([[("Id", Value.vNum 1)]] : List Record) ≠ [] →
        ∃ c ∈ ([[("Id", Value.vNum 1)]] : List Record), idQ c = some m) ∧
      (∀ c ∈ ([[("Id", Value.vNum 1)]] : List Record), ∀ q : ℚ,
        idQ c = some q → q < m + 1) :=
  create_assigns_max_plus_one [[("Id", Value.vNum 1)]] [("Id", Value.vNum 99)]
    (by decide) (by decide)

/-- C3 (amended): starting from any stored collection of numeric-Id records
with unique Ids, any sequence of store operations preserves uniqueness of the
stored Ids, provided no `update` call's `partialData` contains an `Id` field
(an `update` that writes `Id` can duplicate an existing Id — see the
counterexample). -/
theorem ops_preserve_unique_ids (ops : List Op) (s : List Record)
    (hwf : wfIds s = true) (hu : uniqueIds s) (hops : ∀ op ∈ ops, noIdWrite op) :
    uniqueIds (ops.foldl applyOp s) :=
  (foldl_applyOp_preserves hops hwf hu).2

/-- Witness for C3 at the two-record store `[{Id: 1}, {Id: 2}]` under a
create, an Id-free update, and a delete. -/
theorem ops_preserve_unique_ids_witness :
    uniqueIds
      ([Op.opCreate [("code", Value.vStr "X")],
        Op.opUpdate (JsId.num 2) [("code", Value.vStr "B")],
        Op.opDelete (JsId.num 1)].foldl applyOp
        [[("Id", Value.vNum 1)], [("Id", Value.vNum 2)]]) :=
  ops_preserve_unique_ids
    [Op.opCreate [("code", Value.vStr "X")],
      Op.opUpdate (JsId.num 2) [("code", Value.vStr "B")],
      Op.opDelete (JsId.num 1)]
    [[("Id", Value.vNum 1)], [("Id", Value.vNum 2)]]
    (by decide) (by decide) (by decide)

/-- Counterexample to C3 as stated: from the Id-unique store
`[{Id: 1}, {Id: 2}]`, the single operation `update(1, {Id: 2})` — an update
with arbitrary `partialData` — produces a store whose Ids are no longer
unique. -/
theorem update_with_id_duplicates :
    uniqueIds [[("Id", Value.vNum 1)], [("Id", Value.vNum 2)]] ∧
      ¬ uniqueIds (applyOp [[("Id", Value.vNum 1)], [("Id", Value.vNum 2)]]
        (Op.opUpdate (JsId.num 1) [("Id", Value.vNum 2)])) := by
  constructor
  · decide
  · decide

theorem create_gc_field (s : List Record) (course : Record) :
    getField (create s course).2 "gradeCategories" = some (defaultGC course) := by
  show getField (setField (setField course "Id" _) "gradeCategories" (defaultGC course))
      "gradeCategories" = _
  rw [getField_setField_self]

theorem create_other_field (s : List Record) (course : Record) (k : String)
    (hk1 : k ≠ "Id") (hk2 : k ≠ "gradeCategories") :
    getField (create s course).2 k = getField course k := by
  show getField (setField (setField course "Id" _) "gradeCategories" (defaultGC course)) k = _
  rw [getField_setField_ne _ _ _ _ hk2, getField_setField_ne _ _ _ _ hk1]

/-- C9: on a data-model store (numeric, integer Ids), `create` followed by
`getById` of the newly assigned Id returns exactly the created record: the input course plus
the assigned Id, with `gradeCategories` defaulted to the empty array when
absent (and kept when present), and every other field preserved verbatim. -/
theorem create_getById_roundtrip (s : List Record) (course : Record)
    (hwf : wfIds s = true) (hint : intIds s = true) :
    ∃ newId : ℤ,
      getField (create s course).2 "Id" = some (Value.vNum (newId : ℚ)) ∧
      getById (create s course).1 (JsId.num newId) = some (create s course).2 ∧
      (getField course "gradeCategories" = none →
        getField (create s course).2 "gradeCategories" = some (Value.vArr [])) ∧
      (∀ l, getField course "gradeCategories" = some (Value.vArr l) →
        getField (create s course).2 "gradeCategories" = some (Value.vArr l)) ∧
      (∀ k, k ≠ "Id" → k ≠ "gradeCategories" →
        getField (create s course).2 k = getField course k) := by
  obtain ⟨m, hm, hle, hbound, hatt, hid, hstore⟩ := create_id_spec course hwf
  have hden : m.den = 1 := by
    rcases hatt with h0 | ⟨c, hc, hidq⟩
    · rw [h0]; rfl
    · exact intIds_mem hint hc m hidq
  obtain ⟨z, hz⟩ : ∃ z : ℤ, (z : ℚ) = m := ⟨m.num, (Rat.den_eq_one_iff m).mp hden⟩
  have hcast : ((z + 1 : ℤ) : ℚ) = m + 1 := by push_cast [hz]; ring
  refine ⟨z + 1, by rw [hcast]; exact hid, ?_, ?_, ?_, ?_⟩
  · rw [hstore]
    unfold getById
    rw [List.find?_append]
    have hnone : List.find? (fun c => idMatch c (jsParseInt (JsId.num (z + 1)))) s = none := by
      apply List.find?_eq_none.mpr
      intro c hc
      obtain ⟨q, hq, _, hidq⟩ := wf_idNumber hwf c hc
      have hqle := hbound c hc q hidq
      simp only [jsParseInt, idMatch, hq, beq_iff_eq]
      rw [hcast]
      intro hcontra
      rw [hcontra] at hqle
      linarith
    rw [hnone]
    have hpos : (fun c => idMatch c (jsParseInt (JsId.num (z + 1)))) (create s course).2 = true := by
      simp only [jsParseInt, idMatch, hid, beq_iff_eq]
      rw [hcast]
    have hsingle : List.find? (fun c => idMatch c (jsParseInt (JsId.num (z + 1))))
        [(create s course).2] = some (create s course).2 :=
      List.find?_cons_of_pos [] hpos
    rw [hsingle]
    rfl
  · intro hnogc
    rw [create_gc_field]
    simp [defaultGC, hnogc]
  · intro l hl
    rw [create_gc_field]
    simp [defaultGC, hl, falsy]
  · exact create_other_field s course

/-- Witness for C9 at the store `[{Id: 1}]` and the course
`{code: "X"}` (no `gradeCategories` field). -/
theorem create_getById_roundtrip_witness :
    ∃ newId : ℤ,
      getField (create [[("Id", Value.vNum 1)]] [("code", Value.vStr "X")]).2 "Id" =
        some (Value.vNum (newId : ℚ)) ∧
      getById (create [[("Id", Value.vNum 1)]] [("code", Value.vStr "X")]).1
          (JsId.num newId) =
        some (create [[("Id", Value.vNum 1)]] [("code", Value.vStr "X")]).2 ∧
      (getField [("code", Value.vStr "X")] "gradeCategories" = none →
        getField (create [[("Id", Value.vNum 1)]] [("code", Value.vStr "X")]).2
          "gradeCategories" = some (Value.vArr [])) ∧
      (∀ l, getField [("code", Value.vStr "X")] "gradeCategories" = some (Value.vArr l) →
        getField (create [[("Id", Value.vNum 1)]] [("code", Value.vStr "X")]).2
          "gradeCategories" = some (Value.vArr l)) ∧
      (∀ k, k ≠ "Id" → k ≠ "gradeCategories" →
        getField (create [[("Id", Value.vNum 1)]] [("code", Value.vStr "X")]).2 k =
          getField [("code", Value.vStr "X")] k) :=
  create_getById_roundtrip [[("Id", Value.vNum 1)]] [("code", Value.vStr "X")]
    (by decide) (by decide)

/-- C1: the spec's worked example — categories Homework 40 / Exams 60 and
completed graded assignments 90, 80 (Homework) and 70 (Exams) — yields the
breakdown Homework average 85, weighted score 34, count 2 and Exams average
70, weighted score 42, count 1; total weight 100; current grade 76; adjusted
grade 76; and the displayed rounded value 76. -/
theorem aggregation_worked_example :
    calculateGradeByCategory exCourse (courseAssignments exAssignments 1) =
      [⟨"Homework", 40, 85, 2, 34⟩, ⟨"Exams", 60, 70, 1, 42⟩] ∧
    currentGrade (calculateGradeByCategory exCourse (courseAssignments exAssignments 1)) = 76 ∧
    totalWeight (calculateGradeByCategory exCourse (courseAssignments exAssignments 1)) = 100 ∧
    adjustedGrade (calculateGradeByCategory exCourse (courseAssignments exAssignments 1)) = 76 ∧
    jsRound (adjustedGrade (calculateGradeByCategory exCourse (courseAssignments exAssignments 1))) = 76 := by
  refine ⟨?_, ?_, ?_, ?_, ?_⟩ <;>
    norm_num +decide [adjustedGrade, totalWeight, currentGrade, calculateGradeByCategory,
      calcCategory, courseAssignments, round1, jsRound, List.filter_cons, List.filter_nil,
      List.foldl_cons, List.foldl_nil, exCourse, exAssignments]

/-- C10: when every category of the course has zero matching graded
assignments, the weight denominator is `0`, the guard keeps the division from
being evaluated, and the adjusted grade is `0`. -/
theorem zero_weight_no_division (course : Course) (cas : List Assignment)
    (h : ∀ gc ∈ course.gradeCategories, cas.filter (fun a => a.category == gc.name) = []) :
    totalWeight (calculateGradeByCategory course cas) = 0 ∧
      adjustedGrade (calculateGradeByCategory course cas) = 0 := by
  have hcounts : ∀ cg ∈ calculateGradeByCategory course cas, cg.count = 0 := by
    intro cg hcg
    obtain ⟨gc, hgc, rfl⟩ := List.mem_map.mp hcg
    simp [calcCategory, h gc hgc]
  have hw : totalWeight (calculateGradeByCategory course cas) = 0 :=
    foldl_weight_of_counts_zero _ 0 hcounts
  refine ⟨hw, ?_⟩
  unfold adjustedGrade
  rw [hw]
  simp

/-- Witness for C10: a course with one category and one assignment that is
graded but belongs to no category. -/
theorem zero_weight_no_division_witness :
    totalWeight (calculateGradeByCategory
      { Id := 1, code := "C", color := "#fff", targetGrade := 90,
        gradeCategories := [⟨"Homework", 40⟩] }
      [{ Id := 1, courseId := 1, title := "a", category := "", completed := true,
         grade := some 50 }]) = 0 ∧
    adjustedGrade (calculateGradeByCategory
      { Id := 1, code := "C", color := "#fff", targetGrade := 90,
        gradeCategories := [⟨"Homework", 40⟩] }
      [{ Id := 1, courseId := 1, title := "a", category := "", completed := true,
         grade := some 50 }]) = 0 :=
  zero_weight_no_division
    { Id := 1, code := "C", color := "#fff", targetGrade := 90,
      gradeCategories := [⟨"Homework", 40⟩] }
    [{ Id := 1, courseId := 1, title := "a", category := "", completed := true,
       grade := some 50 }]
    (by decide)

/-- Counterexample to C2 as stated: for grades 83, 84, 84 in a category of
weight 50 the stored average is `83.7` (rounded from `251/3`), the claim's
prescription `round1(rounded average * weight / 100) = round1(41.85)` is
`41.9`, but the code stores `41.8 = round1(251/3 * 50 / 100)`: the weighted
score is computed from the unrounded mean, not from the rounded average. -/
theorem weighted_score_from_unrounded_mean :
    (calcCategory
      [{ Id := 1, courseId := 1, title := "a", category := "HW", completed := true, grade := some 83 },
       { Id := 2, courseId := 1, title := "b", category := "HW", completed := true, grade := some 84 },
       { Id := 3, courseId := 1, title := "c", category := "HW", completed := true, grade := some 84 }]
      ⟨"HW", 50⟩).average = 837 / 10 ∧
    round1 ((calcCategory
      [{ Id := 1, courseId := 1, title := "a", category := "HW", completed := true, grade := some 83 },
       { Id := 2, courseId := 1, title := "b", category := "HW", completed := true, grade := some 84 },
       { Id := 3, courseId := 1, title := "c", category := "HW", completed := true, grade := some 84 }]
      ⟨"HW", 50⟩).average * (50 : ℚ) / 100) = 419 / 10 ∧
    (calcCategory
      [{ Id := 1, courseId := 1, title := "a", category := "HW", completed := true, grade := some 83 },
       { Id := 2, courseId := 1, title := "b", category := "HW", completed := true, grade := some 84 },
       { Id := 3, courseId := 1, title := "c", category := "HW", completed := true, grade := some 84 }]
      ⟨"HW", 50⟩).weightedScore = 418 / 10 ∧
    (calcCategory
      [{ Id := 1, courseId := 1, title := "a", category := "HW", completed := true, grade := some 83 },
       { Id := 2, courseId := 1, title := "b", category := "HW", completed := true, grade := some 84 },
       { Id := 3, courseId := 1, title := "c", category := "HW", completed := true, grade := some 84 }]
      ⟨"HW", 50⟩).weightedScore ≠
      round1 ((calcCategory
        [{ Id := 1, courseId := 1, title := "a", category := "HW", completed := true, grade := some 83 },
         { Id := 2, courseId := 1, title := "b", category := "HW", completed := true, grade := some 84 },
         { Id := 3, courseId := 1, title := "c", category := "HW", completed := true, grade := some 84 }]
        ⟨"HW", 50⟩).average * (50 : ℚ) / 100) := by
  refine ⟨?_, ?_, ?_, ?_⟩ <;>
    norm_num +decide [calcCategory, round1, jsRound, List.filter_cons, List.filter_nil,
      List.foldl_cons, List.foldl_nil]

/-- C2 (amended): for every category with at least one matching graded
assignment, `average` is the raw mean rounded to one decimal place (half-up on
the tenths digit) and `weightedScore` is `rawMean * weight / 100` — computed
from the unrounded mean, not from the rounded average — rounded to one
decimal place; both stored values are exact multiples of one tenth, so the
rounding happens before the weighted scores are summed into `currentGrade`. -/
theorem calc_category_rounds_each_step (cas : List Assignment) (cat : GradeCategory)
    (hne : (cas.filter (fun a => a.category == cat.name)).length ≠ 0) :
    (calcCategory cas cat).average =
      round1 ((cas.filter (fun a => a.category == cat.name)).foldl
        (fun sum a => sum + a.grade.getD 0) 0 /
        ((cas.filter (fun a => a.category == cat.name)).length : ℚ)) ∧
    (calcCategory cas cat).weightedScore =
      round1 ((cas.filter (fun a => a.category == cat.name)).foldl
        (fun sum a => sum + a.grade.getD 0) 0 /
        ((cas.filter (fun a => a.category == cat.name)).length : ℚ) * cat.weight / 100) ∧
    (∃ n : ℤ, (calcCategory cas cat).average = (n : ℚ) / 10) ∧
    (∃ n : ℤ, (calcCategory cas cat).weightedScore = (n : ℚ) / 10) := by
  have h : calcCategory cas cat =
      { name := cat.name, weight := cat.weight,
        average := round1 ((cas.filter (fun a => a.category == cat.name)).foldl
          (fun sum a => sum + a.grade.getD 0) 0 /
          ((cas.filter (fun a => a.category == cat.name)).length : ℚ)),
        count := (cas.filter (fun a => a.category == cat.name)).length,
        weightedScore := round1 ((cas.filter (fun a => a.category == cat.name)).foldl
          (fun sum a => sum + a.grade.getD 0) 0 /
          ((cas.filter (fun a => a.category == cat.name)).length : ℚ) * cat.weight / 100) } := by
    simp only [calcCategory]
    rw [if_neg hne]
  rw [h]
  exact ⟨rfl, rfl, ⟨_, rfl⟩, ⟨_, rfl⟩⟩

/-- Witness for C2 (amended) at one graded assignment (grade 80) in a category
of weight 50. -/
theorem calc_category_rounds_each_step_witness :
    (calcCategory w2cas w2cat).average =
      round1 ((w2cas.filter (fun a => a.category == w2cat.name)).foldl
        (fun sum a => sum + a.grade.getD 0) 0 /
        ((w2cas.filter (fun a => a.category == w2cat.name)).length : ℚ)) ∧
    (calcCategory w2cas w2cat).weightedScore =
      round1 ((w2cas.filter (fun a => a.category == w2cat.name)).foldl
        (fun sum a => sum + a.grade.getD 0) 0 /
        ((w2cas.filter (fun a => a.category == w2cat.name)).length : ℚ) * w2cat.weight / 100) ∧
    (∃ n : ℤ, (calcCategory w2cas w2cat).average = (n : ℚ) / 10) ∧
    (∃ n : ℤ, (calcCategory w2cas w2cat).weightedScore = (n : ℚ) / 10) :=
  calc_category_rounds_each_step w2cas w2cat (by decide)
